import Mathlib

/-!
Verification of the ppaass-v4 secure tunnel layer against its specification.

The development shallowly embeds the Rust sources:
* `src/common/src/codec.rs` — `SecureLengthDelimitedCodec` (length-delimited
  framing from `tokio_util::codec::LengthDelimitedCodec::new()` with its
  default 4-byte big-endian length field and 8 MiB maximum frame length,
  composed with per-direction symmetric encryption);
* `src/crypto/src/aes.rs`, `src/crypto/src/blowfish.rs` — CBC mode with
  PKCS7 padding over a block cipher; the raw block permutations (AES-256,
  Blowfish) are external crates and are modelled as an abstract key-indexed
  block-cipher family;
* `src/protocol/src/packet.rs` — the wire packets, serialized with
  `bincode::config::standard()` (little-endian, variable-length integer
  encoding);
* `src/proxy/src/tunnel.rs`, `src/common/src/proxy.rs` — the handshake and
  destination-setup control flow, modelled at message level;
* `src/common/src/server.rs` — the accept loop;
* `src/agent/src/tunnel/mod.rs`, `src/agent/src/tunnel/socks5.rs` — the
  agent ingress dispatch and SOCKS5 CONNECT path;
* `src/proxy/src/destination/udp.rs` — the UDP egress buffers.

Bytes are modelled as `List Nat` (each entry a byte value).
-/

namespace PpaassV4

/-! ## Byte utilities -/

/-- Bytewise xor of two byte lists, as CBC mode combines a block with the
previous ciphertext block. Length is the minimum of the two lengths. -/
def xorBytes (a b : List Nat) : List Nat :=
  List.zipWith (fun x y => x ^^^ y) a b

theorem xorBytes_length (a b : List Nat) :
    (xorBytes a b).length = min a.length b.length := by
  simp [xorBytes]

theorem xorBytes_self_cancel : ∀ (a b : List Nat), a.length = b.length →
    xorBytes a (xorBytes a b) = b := by
  intro a
  induction a with
  | nil =>
    intro b h
    have hb : b = [] := List.eq_nil_of_length_eq_zero (by simpa using h.symm)
    subst hb
    rfl
  | cons x xs ih =>
    intro b h
    cases b with
    | nil => simp at h
    | cons y ys =>
      simp only [xorBytes, List.zipWith_cons_cons]
      rw [← Nat.xor_assoc, Nat.xor_self, Nat.zero_xor]
      have hih := ih ys (by simpa using h)
      simp only [xorBytes] at hih
      rw [hih]

/-! ## PKCS7 padding (behaviour of the `block-padding` crate's `Pkcs7`) -/

/-- PKCS7 padding: append `padLen` copies of the byte `padLen`, where
`padLen = bs - data.length % bs` (always between 1 and `bs`). -/
def pkcs7Pad (bs : Nat) (data : List Nat) : List Nat :=
  data ++ List.replicate (bs - data.length % bs) (bs - data.length % bs)

/-- PKCS7 unpadding: read the final byte `p`, require `1 ≤ p ≤ bs` and the
final `p` bytes all equal to `p`, and strip them; otherwise fail. -/
def pkcs7Unpad (bs : Nat) (data : List Nat) : Option (List Nat) :=
  match data.getLast? with
  | none => none
  | some p =>
    if p = 0 then none
    else if bs < p then none
    else if data.length < p then none
    else if (data.drop (data.length - p)).all (fun b => b = p) then
      some (data.take (data.length - p))
    else none

theorem pkcs7Pad_length (bs : Nat) (data : List Nat) :
    (pkcs7Pad bs data).length = data.length + (bs - data.length % bs) := by
  simp [pkcs7Pad]

theorem pkcs7Pad_length_dvd (bs : Nat) (hbs : 0 < bs) (data : List Nat) :
    bs ∣ (pkcs7Pad bs data).length := by
  rw [pkcs7Pad_length]
  have h1 : data.length % bs < bs := Nat.mod_lt data.length hbs
  obtain ⟨q, hq⟩ : ∃ q, bs * q + data.length % bs = data.length :=
    ⟨data.length / bs, Nat.div_add_mod data.length bs⟩
  refine ⟨q + 1, ?_⟩
  rw [Nat.mul_add, Nat.mul_one]
  omega

theorem pkcs7Unpad_pkcs7Pad (bs : Nat) (hbs : 0 < bs) (data : List Nat) :
    pkcs7Unpad bs (pkcs7Pad bs data) = some data := by
  have hlt : data.length % bs < bs := Nat.mod_lt data.length hbs
  set p := bs - data.length % bs with hp
  have hppos : 0 < p := by omega
  have hple : p ≤ bs := by omega
  have hpad : pkcs7Pad bs data = data ++ List.replicate p p := rfl
  have hlast : (data ++ List.replicate p p).getLast? = some p := by
    cases hq : p with
    | zero => omega
    | succ n =>
      rw [List.replicate_succ', ← List.append_assoc]
      exact List.getLast?_concat _
  have hlen : (data ++ List.replicate p p).length = data.length + p := by simp
  have hdl : data.length + p - p = data.length := by omega
  have hdrop : (data ++ List.replicate p p).drop (data.length + p - p)
      = List.replicate p p := by
    rw [hdl, List.drop_left]
  have htake : (data ++ List.replicate p p).take (data.length + p - p) = data := by
    rw [hdl, List.take_left]
  rw [hpad]
  simp only [pkcs7Unpad, hlast, hlen, hdrop, htake]
  rw [if_neg (by omega), if_neg (by omega), if_neg (by omega), if_pos]
  simp [List.all_eq_true, List.mem_replicate]

/-! ## CBC mode over an abstract block cipher (behaviour of the `cbc` crate) -/

/-- Split a byte list into consecutive chunks of `bs` bytes (the block
decomposition used by CBC mode). -/
def chunks (bs : Nat) (l : List Nat) : List (List Nat) :=
  if _h : bs = 0 ∨ l = [] then []
  else l.take bs :: chunks bs (l.drop bs)
termination_by l.length
decreasing_by
  push_neg at _h
  obtain ⟨h1, h2⟩ := _h
  have hpos : 0 < l.length := List.length_pos.mpr h2
  simp only [List.length_drop]
  omega

theorem flatten_cons_eq (a : List Nat) (L : List (List Nat)) :
    (a :: L).flatten = a ++ L.flatten := rfl

theorem chunks_flatten (bs : Nat) (hbs : 0 < bs) :
    ∀ l : List Nat, (chunks bs l).flatten = l := by
  have main : ∀ n, ∀ l : List Nat, l.length ≤ n → (chunks bs l).flatten = l := by
    intro n
    induction n with
    | zero =>
      intro l hl
      have hnil : l = [] := List.eq_nil_of_length_eq_zero (by omega)
      subst hnil
      rw [chunks]
      simp
    | succ n ih =>
      intro l hl
      by_cases hnil : l = []
      · subst hnil; rw [chunks]; simp
      · rw [chunks, dif_neg (by simp [hnil]; omega)]
        have hpos : 0 < l.length := List.length_pos.mpr hnil
        have hdl : (l.drop bs).length ≤ n := by
          simp only [List.length_drop]
          omega
        rw [flatten_cons_eq, ih _ hdl, List.take_append_drop]
  intro l
  exact main l.length l (le_refl _)

theorem chunks_length_mem (bs : Nat) (hbs : 0 < bs) :
    ∀ l : List Nat, bs ∣ l.length → ∀ c ∈ chunks bs l, c.length = bs := by
  have main : ∀ n, ∀ l : List Nat, l.length ≤ n → bs ∣ l.length →
      ∀ c ∈ chunks bs l, c.length = bs := by
    intro n
    induction n with
    | zero =>
      intro l hl _ c hc
      have hnil : l = [] := List.eq_nil_of_length_eq_zero (by omega)
      subst hnil
      rw [chunks] at hc
      simp at hc
    | succ n ih =>
      intro l hl hdvd c hc
      by_cases hnil : l = []
      · subst hnil; rw [chunks] at hc; simp at hc
      · rw [chunks, dif_neg (by simp [hnil]; omega)] at hc
        have hpos : 0 < l.length := List.length_pos.mpr hnil
        have hge : bs ≤ l.length := Nat.le_of_dvd hpos hdvd
        rcases List.mem_cons.mp hc with hceq | hcm
        · rw [hceq]
          simp only [List.length_take]
          omega
        · have hdvd2 : bs ∣ (l.drop bs).length := by
            simp only [List.length_drop]
            exact Nat.dvd_sub' hdvd dvd_rfl
          have hdl : (l.drop bs).length ≤ n := by
            simp only [List.length_drop]
            omega
          exact ih _ hdl hdvd2 c hcm
  intro l
  exact main l.length l (le_refl _)

theorem chunks_of_flatten (bs : Nat) (hbs : 0 < bs) :
    ∀ L : List (List Nat), (∀ c ∈ L, c.length = bs) → chunks bs L.flatten = L := by
  intro L
  induction L with
  | nil => intro _; rw [chunks]; simp
  | cons b rest ih =>
    intro hlen
    have hb : b.length = bs := hlen b (by simp)
    have hbne : b ++ rest.flatten ≠ [] := by
      intro hcon
      have h1 : b = [] := by
        cases b with
        | nil => rfl
        | cons x xs => simp at hcon
      rw [h1] at hb
      simp at hb
      omega
    rw [flatten_cons_eq, chunks, dif_neg (by simp [hbne]; omega)]
    have htake : (b ++ rest.flatten).take bs = b := by
      rw [← hb, List.take_left]
    have hdrop : (b ++ rest.flatten).drop bs = rest.flatten := by
      rw [← hb, List.drop_left]
    rw [htake, hdrop, ih (fun c hc => hlen c (by simp [hc]))]

/-- CBC encryption of a block sequence: each plaintext block is xored with
the previous ciphertext block (initially the IV) and passed through the
block-encryption function. -/
def cbcEncBlocks (encB : List Nat → List Nat) : List Nat → List (List Nat) → List (List Nat)
  | _, [] => []
  | iv, b :: rest =>
    encB (xorBytes iv b) :: cbcEncBlocks encB (encB (xorBytes iv b)) rest

/-- CBC decryption of a block sequence: each ciphertext block is passed
through the block-decryption function and xored with the previous
ciphertext block (initially the IV). -/
def cbcDecBlocks (decB : List Nat → List Nat) : List Nat → List (List Nat) → List (List Nat)
  | _, [] => []
  | iv, c :: rest => xorBytes iv (decB c) :: cbcDecBlocks decB c rest

/-- Key-indexed block-cipher family. The repository's AES-256 and Blowfish
block permutations live in external crates (`aes`, `blowfish`); they are
abstracted as a family of block functions indexed by the raw key bytes. -/
structure BlockCipherFamily where
  bs : Nat
  encB : List Nat → List Nat → List Nat
  decB : List Nat → List Nat → List Nat

/-- A family is good when the block size is positive and, for every key,
block encryption preserves the block length and block decryption inverts
block encryption (true of any real block cipher in a keyed permutation). -/
def GoodFamily (F : BlockCipherFamily) : Prop :=
  0 < F.bs ∧ ∀ k b, b.length = F.bs →
    (F.encB k b).length = F.bs ∧ F.decB k (F.encB k b) = b

theorem cbcEncBlocks_length_mem (bs : Nat) (encB : List Nat → List Nat)
    (hpres : ∀ b, b.length = bs → (encB b).length = bs) :
    ∀ (blocks : List (List Nat)) (iv : List Nat), iv.length = bs →
      (∀ b ∈ blocks, b.length = bs) →
      ∀ c ∈ cbcEncBlocks encB iv blocks, c.length = bs := by
  intro blocks
  induction blocks with
  | nil => intro iv _ _ c hc; simp [cbcEncBlocks] at hc
  | cons b rest ih =>
    intro iv hiv hblocks c hc
    have hb : b.length = bs := hblocks b (by simp)
    have hxlen : (xorBytes iv b).length = bs := by
      rw [xorBytes_length, hiv, hb]
      simp
    have hclen : (encB (xorBytes iv b)).length = bs := hpres _ hxlen
    simp only [cbcEncBlocks] at hc
    rcases List.mem_cons.mp hc with hceq | hcm
    · rw [hceq]; exact hclen
    · exact ih _ hclen (fun x hx => hblocks x (List.mem_cons_of_mem _ hx)) c hcm

theorem cbcDecBlocks_cbcEncBlocks (bs : Nat) (encB decB : List Nat → List Nat)
    (hpres : ∀ b, b.length = bs → (encB b).length = bs)
    (hinv : ∀ b, b.length = bs → decB (encB b) = b) :
    ∀ (blocks : List (List Nat)) (iv : List Nat), iv.length = bs →
      (∀ b ∈ blocks, b.length = bs) →
      cbcDecBlocks decB iv (cbcEncBlocks encB iv blocks) = blocks := by
  intro blocks
  induction blocks with
  | nil => intro iv _ _; simp [cbcEncBlocks, cbcDecBlocks]
  | cons b rest ih =>
    intro iv hiv hblocks
    have hb : b.length = bs := hblocks b (by simp)
    have hxlen : (xorBytes iv b).length = bs := by
      rw [xorBytes_length, hiv, hb]
      simp
    have hclen : (encB (xorBytes iv b)).length = bs := hpres _ hxlen
    simp only [cbcEncBlocks, cbcDecBlocks]
    have h1 : xorBytes iv (decB (encB (xorBytes iv b))) = b := by
      rw [hinv _ hxlen]
      exact xorBytes_self_cancel iv b (by omega)
    rw [h1, ih _ hclen (fun x hx => hblocks x (List.mem_cons_of_mem _ hx))]

/-- CBC encryption with PKCS7 padding, as `encrypt_padded_vec_mut::<Pkcs7>`
does: pad the plaintext to a multiple of the block size, then CBC-encrypt
the blocks and concatenate. -/
def cbcPkcs7Encrypt (bs : Nat) (encB : List Nat → List Nat) (iv data : List Nat) : List Nat :=
  (cbcEncBlocks encB iv (chunks bs (pkcs7Pad bs data))).flatten

/-- CBC decryption with PKCS7 unpadding, as `decrypt_padded_vec_mut::<Pkcs7>`
does: require the ciphertext length to be a multiple of the block size,
CBC-decrypt the blocks, and strip the PKCS7 padding; any violation is an
error (`none`). -/
def cbcPkcs7Decrypt (bs : Nat) (decB : List Nat → List Nat) (iv data : List Nat) :
    Option (List Nat) :=
  if data.length % bs = 0 then
    pkcs7Unpad bs ((cbcDecBlocks decB iv (chunks bs data)).flatten)
  else none

theorem cbcPkcs7Encrypt_length (bs : Nat) (hbs : 0 < bs) (encB : List Nat → List Nat)
    (hpres : ∀ b, b.length = bs → (encB b).length = bs)
    (iv data : List Nat) (hiv : iv.length = bs) :
    (cbcPkcs7Encrypt bs encB iv data).length = data.length + (bs - data.length % bs) := by
  unfold cbcPkcs7Encrypt
  have hdvd : bs ∣ (pkcs7Pad bs data).length := pkcs7Pad_length_dvd bs hbs data
  have hchunk : ∀ c ∈ chunks bs (pkcs7Pad bs data), c.length = bs :=
    chunks_length_mem bs hbs _ hdvd
  have henc : ∀ c ∈ cbcEncBlocks encB iv (chunks bs (pkcs7Pad bs data)), c.length = bs :=
    cbcEncBlocks_length_mem bs encB hpres _ iv hiv hchunk
  have hjoin : ∀ (L : List (List Nat)), (∀ c ∈ L, c.length = bs) →
      L.flatten.length = bs * L.length := by
    intro L
    induction L with
    | nil => intro _; simp
    | cons c rest ihL =>
      intro hL
      rw [flatten_cons_eq, List.length_append, List.length_cons,
        hL c (by simp), ihL (fun x hx => hL x (by simp [hx]))]
      ring
  have hlenBlocks : ∀ (encB2 : List Nat → List Nat) (L : List (List Nat)) (iv2 : List Nat),
      (cbcEncBlocks encB2 iv2 L).length = L.length := by
    intro encB2 L
    induction L with
    | nil => intro iv2; simp [cbcEncBlocks]
    | cons c rest ihL => intro iv2; simp [cbcEncBlocks, ihL]
  rw [hjoin _ henc, hlenBlocks]
  have h2 : bs * (chunks bs (pkcs7Pad bs data)).length = (pkcs7Pad bs data).length := by
    have := hjoin (chunks bs (pkcs7Pad bs data)) hchunk
    rw [chunks_flatten bs hbs] at this
    omega
  rw [h2, pkcs7Pad_length]

theorem cbcPkcs7Decrypt_cbcPkcs7Encrypt (bs : Nat) (hbs : 0 < bs)
    (encB decB : List Nat → List Nat)
    (hpres : ∀ b, b.length = bs → (encB b).length = bs)
    (hinv : ∀ b, b.length = bs → decB (encB b) = b)
    (iv data : List Nat) (hiv : iv.length = bs) :
    cbcPkcs7Decrypt bs decB iv (cbcPkcs7Encrypt bs encB iv data) = some data := by
  have hdvd : bs ∣ (pkcs7Pad bs data).length := pkcs7Pad_length_dvd bs hbs data
  have hchunk : ∀ c ∈ chunks bs (pkcs7Pad bs data), c.length = bs :=
    chunks_length_mem bs hbs _ hdvd
  have henc : ∀ c ∈ cbcEncBlocks encB iv (chunks bs (pkcs7Pad bs data)), c.length = bs :=
    cbcEncBlocks_length_mem bs encB hpres _ iv hiv hchunk
  have hlen : (cbcPkcs7Encrypt bs encB iv data).length
      = data.length + (bs - data.length % bs) :=
    cbcPkcs7Encrypt_length bs hbs encB hpres iv data hiv
  have hmod : (cbcPkcs7Encrypt bs encB iv data).length % bs = 0 := by
    have hd2 : bs ∣ (cbcPkcs7Encrypt bs encB iv data).length := by
      rw [hlen, ← pkcs7Pad_length]
      exact pkcs7Pad_length_dvd bs hbs data
    obtain ⟨c, hc⟩ := hd2
    rw [hc]
    exact Nat.mul_mod_right bs c
  unfold cbcPkcs7Decrypt
  rw [if_pos hmod]
  unfold cbcPkcs7Encrypt
  rw [chunks_of_flatten bs hbs _ henc,
    cbcDecBlocks_cbcEncBlocks bs encB decB hpres hinv _ iv hiv hchunk,
    chunks_flatten bs hbs, pkcs7Unpad_pkcs7Pad bs hbs]

/-! ## Encryption tokens and the crypto-crate entry points
(`src/protocol/src/packet.rs` `Encryption`, `src/crypto/src/aes.rs`,
`src/crypto/src/blowfish.rs`) -/

/-- The `Encryption` enum of `src/protocol/src/packet.rs`: no encryption,
an AES token (32-byte key followed by 16-byte IV), or a Blowfish token
(56-byte key followed by 8-byte IV). -/
inductive Encryption where
  | plain : Encryption
  | aes (token : List Nat) : Encryption
  | blowfish (token : List Nat) : Encryption
deriving DecidableEq, Repr

/-- Embedding of `encrypt_with_aes` (`src/crypto/src/aes.rs`): split the
token into a 32-byte key and 16-byte IV and run AES-256-CBC with PKCS7
padding. `new_from_slices` rejects a token that is not 48 bytes (`none`).
The AES block permutation itself is the abstract family `A`. -/
def encrypt_with_aes (A : BlockCipherFamily) (token target : List Nat) : Option (List Nat) :=
  if token.length = 48 then
    some (cbcPkcs7Encrypt A.bs (A.encB (token.take 32)) (token.drop 32) target)
  else none

/-- Embedding of `decrypt_with_aes` (`src/crypto/src/aes.rs`). -/
def decrypt_with_aes (A : BlockCipherFamily) (token target : List Nat) : Option (List Nat) :=
  if token.length = 48 then
    cbcPkcs7Decrypt A.bs (A.decB (token.take 32)) (token.drop 32) target
  else none

/-- Embedding of `encrypt_with_blowfish` (`src/crypto/src/blowfish.rs`):
56-byte key followed by 8-byte IV; the token must be 64 bytes. -/
def encrypt_with_blowfish (B : BlockCipherFamily) (token target : List Nat) : Option (List Nat) :=
  if token.length = 64 then
    some (cbcPkcs7Encrypt B.bs (B.encB (token.take 56)) (token.drop 56) target)
  else none

/-- Embedding of `decrypt_with_blowfish` (`src/crypto/src/blowfish.rs`). -/
def decrypt_with_blowfish (B : BlockCipherFamily) (token target : List Nat) : Option (List Nat) :=
  if token.length = 64 then
    cbcPkcs7Decrypt B.bs (B.decB (token.take 56)) (token.drop 56) target
  else none

/-! ## Length-delimited framing
(`tokio_util::codec::LengthDelimitedCodec::new()` as used by
`src/common/src/codec.rs`: 4-byte big-endian length field, maximum frame
length 8 MiB on both encode and decode) -/

/-- Default `max_frame_length` of `LengthDelimitedCodec::new()`:
8 * 1024 * 1024 bytes. -/
def MAX_FRAME_LEN : Nat := 8 * 1024 * 1024

/-- Big-endian 4-byte encoding of a frame length. -/
def u32BE (n : Nat) : List Nat :=
  [n / 2 ^ 24 % 256, n / 2 ^ 16 % 256, n / 2 ^ 8 % 256, n % 256]

/-- Big-endian read of a 4-byte length field. -/
def fromU32BE (b : List Nat) : Nat :=
  match b with
  | [b0, b1, b2, b3] => ((b0 * 256 + b1) * 256 + b2) * 256 + b3
  | _ => 0

theorem fromU32BE_u32BE (n : Nat) (h : n < 2 ^ 32) : fromU32BE (u32BE n) = n := by
  simp only [u32BE, fromU32BE]
  omega

/-- Encoding of one frame: reject an item longer than the maximum frame
length, otherwise prepend the 4-byte big-endian length. -/
def lengthDelimitedEncode (item : List Nat) : Option (List Nat) :=
  if MAX_FRAME_LEN < item.length then none
  else some (u32BE item.length ++ item)

/-- Decoding of one frame from a buffer: with fewer than 4 bytes nothing is
returned yet; a length field above the maximum is an error; with an
incomplete frame nothing is returned yet; otherwise the frame body and the
unconsumed remainder of the buffer are returned. -/
def lengthDelimitedDecode (src : List Nat) :
    Except Unit (Option (List Nat × List Nat)) :=
  if src.length < 4 then .ok none
  else
    if MAX_FRAME_LEN < fromU32BE (src.take 4) then .error ()
    else if src.length < 4 + fromU32BE (src.take 4) then .ok none
    else .ok (some ((src.drop 4).take (fromU32BE (src.take 4)),
      src.drop (4 + fromU32BE (src.take 4))))

theorem lengthDelimitedDecode_lengthDelimitedEncode (item rest wire : List Nat)
    (henc : lengthDelimitedEncode item = some wire) :
    lengthDelimitedDecode (wire ++ rest) = .ok (some (item, rest)) := by
  unfold lengthDelimitedEncode at henc
  by_cases hle : MAX_FRAME_LEN < item.length
  · rw [if_pos hle] at henc
    cases henc
  · rw [if_neg hle] at henc
    have hwire : wire = u32BE item.length ++ item := by
      cases henc
      rfl
    subst hwire
    have hsmall : item.length < 2 ^ 32 := by
      unfold MAX_FRAME_LEN at hle
      omega
    have hu32len : (u32BE item.length).length = 4 := by simp [u32BE]
    have htotal : ((u32BE item.length ++ item) ++ rest).length
        = 4 + item.length + rest.length := by
      rw [List.length_append, List.length_append, hu32len]
    have htake4 : ((u32BE item.length ++ item) ++ rest).take 4 = u32BE item.length := by
      rw [List.append_assoc, ← hu32len, List.take_left]
    have hfrom : fromU32BE (((u32BE item.length ++ item) ++ rest).take 4) = item.length := by
      rw [htake4, fromU32BE_u32BE _ hsmall]
    have hdrop4 : ((u32BE item.length ++ item) ++ rest).drop 4 = item ++ rest := by
      rw [List.append_assoc, ← hu32len, List.drop_left]
    unfold lengthDelimitedDecode
    rw [if_neg (by omega), hfrom, if_neg hle, if_neg (by omega)]
    have hdropAll : ((u32BE item.length ++ item) ++ rest).drop (4 + item.length) = rest := by
      rw [List.append_assoc, List.drop_append_eq_append_drop, hu32len]
      have h1 : (u32BE item.length).drop (4 + item.length) = [] := by
        apply List.drop_eq_nil_of_le
        rw [hu32len]
        omega
      have h2 : 4 + item.length - 4 = item.length := by omega
      rw [h1, h2, List.nil_append, List.drop_left]
    rw [hdrop4, hdropAll, List.take_left]

/-! ## SecureLengthDelimitedCodec (`src/common/src/codec.rs`)

The codec holds two `Encryption` values, one for the decode direction and
one for the encode direction; the `encode` and `decode` functions below
take the relevant direction's `Encryption` as argument. -/

/-- Field pair of `SecureLengthDelimitedCodec::new(decoder_encryption,
encoder_encryption)`. -/
structure SecureCodecKeys where
  decoder_encryption : Encryption
  encoder_encryption : Encryption
deriving DecidableEq, Repr

/-- Embedding of `SecureLengthDelimitedCodec::encode`: encrypt the payload
under the encoder's `Encryption` (or pass it through for `Plain`), then
frame it with the length-delimited codec. -/
def secureEncode (A B : BlockCipherFamily) (enc : Encryption) (item : List Nat) :
    Option (List Nat) :=
  match enc with
  | .plain => lengthDelimitedEncode item
  | .aes token => (encrypt_with_aes A token item).bind lengthDelimitedEncode
  | .blowfish token => (encrypt_with_blowfish B token item).bind lengthDelimitedEncode

/-- Embedding of `SecureLengthDelimitedCodec::decode` applied to a buffer:
pull one frame off the buffer with the length-delimited codec (yielding
nothing if the frame is incomplete), then decrypt the frame body under the
decoder's `Encryption`; a decrypt failure is an error. The unconsumed
remainder of the buffer is returned alongside the plaintext. -/
def secureDecode (A B : BlockCipherFamily) (enc : Encryption) (src : List Nat) :
    Except Unit (Option (List Nat × List Nat)) :=
  match lengthDelimitedDecode src with
  | .error e => .error e
  | .ok none => .ok none
  | .ok (some (frame, rest)) =>
    match enc with
    | .plain => .ok (some (frame, rest))
    | .aes token =>
      match decrypt_with_aes A token frame with
      | none => .error ()
      | some raw => .ok (some (raw, rest))
    | .blowfish token =>
      match decrypt_with_blowfish B token frame with
      | none => .error ()
      | some raw => .ok (some (raw, rest))

/-- A token of the length the matching cipher expects: AES tokens are 48
bytes, Blowfish tokens are 64 bytes; `Plain` carries no token. -/
def tokenMatches : Encryption → Prop
  | .plain => True
  | .aes t => t.length = 48
  | .blowfish t => t.length = 64

/-- The plaintext sizes for which the encoder can emit a frame: with
`Plain` the payload itself must fit the 8 MiB frame cap; with AES or
Blowfish the PKCS7-padded ciphertext must fit, which holds exactly when
the plaintext is strictly below 8 MiB (the cap is a multiple of both block
sizes). -/
def plaintextFits : Encryption → List Nat → Prop
  | .plain, p => p.length ≤ MAX_FRAME_LEN
  | .aes _, p => p.length < MAX_FRAME_LEN
  | .blowfish _, p => p.length < MAX_FRAME_LEN

/-! ## Claim C1: codec round-trip -/

/-- A concrete key-indexed block permutation family (every key maps a block
to itself); it satisfies `GoodFamily` and instantiates the abstract AES and
Blowfish block permutations in concrete witnesses. -/
def idFamily (bs : Nat) : BlockCipherFamily :=
  ⟨bs, fun _ b => b, fun _ b => b⟩

theorem goodFamily_idFamily (bs : Nat) (hbs : 0 < bs) : GoodFamily (idFamily bs) :=
  ⟨hbs, fun _ _ hb => ⟨hb, rfl⟩⟩

theorem option_some_bind (x : List Nat) (f : List Nat → Option (List Nat)) :
    (some x).bind f = f x := rfl

/-- Claim C1 (amended): encoding a plaintext whose encrypted record fits the
8 MiB frame cap — at most 8 MiB for `Plain`, strictly below 8 MiB for `Aes`
and `Blowfish` (PKCS7 padding enlarges the record) — with
`SecureLengthDelimitedCodec` and decoding the produced bytes with a codec
holding the same token yields exactly the plaintext, and the decoder
consumes exactly the framing bytes the encoder produced (any trailing bytes
are left in the buffer untouched). -/
theorem claim_C1 (A B : BlockCipherFamily)
    (hA : GoodFamily A) (hA16 : A.bs = 16) (hB : GoodFamily B) (hB8 : B.bs = 8)
    (enc : Encryption) (p rest : List Nat)
    (htok : tokenMatches enc) (hfit : plaintextFits enc p) :
    ∃ wire, secureEncode A B enc p = some wire ∧
      secureDecode A B enc (wire ++ rest) = Except.ok (some (p, rest)) := by
  cases enc with
  | plain =>
    have hfit2 : ¬ MAX_FRAME_LEN < p.length := by
      simp only [plaintextFits] at hfit
      omega
    refine ⟨u32BE p.length ++ p, ?_, ?_⟩
    · simp [secureEncode, lengthDelimitedEncode, hfit2]
    · have hdec := lengthDelimitedDecode_lengthDelimitedEncode p rest
        (u32BE p.length ++ p) (by simp [lengthDelimitedEncode, hfit2])
      unfold secureDecode
      rw [hdec]
  | aes token =>
    simp only [tokenMatches] at htok
    simp only [plaintextFits] at hfit
    have hbs : 0 < A.bs := hA.1
    have hpres : ∀ b : List Nat, b.length = A.bs →
        (A.encB (token.take 32) b).length = A.bs :=
      fun b hb => (hA.2 (token.take 32) b hb).1
    have hinv : ∀ b : List Nat, b.length = A.bs →
        A.decB (token.take 32) (A.encB (token.take 32) b) = b :=
      fun b hb => (hA.2 (token.take 32) b hb).2
    have hiv : (token.drop 32).length = A.bs := by
      simp [htok, hA16]
    have hctlen := cbcPkcs7Encrypt_length A.bs hbs (A.encB (token.take 32)) hpres
      (token.drop 32) p hiv
    have hctle : ¬ MAX_FRAME_LEN <
        (cbcPkcs7Encrypt A.bs (A.encB (token.take 32)) (token.drop 32) p).length := by
      rw [hctlen, hA16]
      unfold MAX_FRAME_LEN at *
      omega
    refine ⟨u32BE (cbcPkcs7Encrypt A.bs (A.encB (token.take 32)) (token.drop 32) p).length
      ++ cbcPkcs7Encrypt A.bs (A.encB (token.take 32)) (token.drop 32) p, ?_, ?_⟩
    · simp only [secureEncode, encrypt_with_aes, if_pos htok, option_some_bind]
      simp [lengthDelimitedEncode, hctle]
    · have hdec := lengthDelimitedDecode_lengthDelimitedEncode
        (cbcPkcs7Encrypt A.bs (A.encB (token.take 32)) (token.drop 32) p) rest
        (u32BE (cbcPkcs7Encrypt A.bs (A.encB (token.take 32)) (token.drop 32) p).length
          ++ cbcPkcs7Encrypt A.bs (A.encB (token.take 32)) (token.drop 32) p)
        (by simp [lengthDelimitedEncode, hctle])
      have hdecrypt : decrypt_with_aes A token
          (cbcPkcs7Encrypt A.bs (A.encB (token.take 32)) (token.drop 32) p) = some p := by
        unfold decrypt_with_aes
        rw [if_pos htok]
        exact cbcPkcs7Decrypt_cbcPkcs7Encrypt A.bs hbs _ _ hpres hinv _ p hiv
      unfold secureDecode
      simp only [hdec]
      rw [hdecrypt]
  | blowfish token =>
    simp only [tokenMatches] at htok
    simp only [plaintextFits] at hfit
    have hbs : 0 < B.bs := hB.1
    have hpres : ∀ b : List Nat, b.length = B.bs →
        (B.encB (token.take 56) b).length = B.bs :=
      fun b hb => (hB.2 (token.take 56) b hb).1
    have hinv : ∀ b : List Nat, b.length = B.bs →
        B.decB (token.take 56) (B.encB (token.take 56) b) = b :=
      fun b hb => (hB.2 (token.take 56) b hb).2
    have hiv : (token.drop 56).length = B.bs := by
      simp [htok, hB8]
    have hctlen := cbcPkcs7Encrypt_length B.bs hbs (B.encB (token.take 56)) hpres
      (token.drop 56) p hiv
    have hctle : ¬ MAX_FRAME_LEN <
        (cbcPkcs7Encrypt B.bs (B.encB (token.take 56)) (token.drop 56) p).length := by
      rw [hctlen, hB8]
      unfold MAX_FRAME_LEN at *
      omega
    refine ⟨u32BE (cbcPkcs7Encrypt B.bs (B.encB (token.take 56)) (token.drop 56) p).length
      ++ cbcPkcs7Encrypt B.bs (B.encB (token.take 56)) (token.drop 56) p, ?_, ?_⟩
    · simp only [secureEncode, encrypt_with_blowfish, if_pos htok, option_some_bind]
      simp [lengthDelimitedEncode, hctle]
    · have hdec := lengthDelimitedDecode_lengthDelimitedEncode
        (cbcPkcs7Encrypt B.bs (B.encB (token.take 56)) (token.drop 56) p) rest
        (u32BE (cbcPkcs7Encrypt B.bs (B.encB (token.take 56)) (token.drop 56) p).length
          ++ cbcPkcs7Encrypt B.bs (B.encB (token.take 56)) (token.drop 56) p)
        (by simp [lengthDelimitedEncode, hctle])
      have hdecrypt : decrypt_with_blowfish B token
          (cbcPkcs7Encrypt B.bs (B.encB (token.take 56)) (token.drop 56) p) = some p := by
        unfold decrypt_with_blowfish
        rw [if_pos htok]
        exact cbcPkcs7Decrypt_cbcPkcs7Encrypt B.bs hbs _ _ hpres hinv _ p hiv
      unfold secureDecode
      simp only [hdec]
      rw [hdecrypt]

/-- Witness for C1 at a concrete input: an AES token of 48 zero bytes,
plaintext `[1, 2, 3]`, one trailing buffer byte. -/
theorem claim_C1_witness :
    ∃ wire, secureEncode (idFamily 16) (idFamily 8)
        (Encryption.aes (List.replicate 48 0)) [1, 2, 3] = some wire ∧
      secureDecode (idFamily 16) (idFamily 8) (Encryption.aes (List.replicate 48 0))
        (wire ++ [7]) = Except.ok (some ([1, 2, 3], [7])) :=
  claim_C1 (idFamily 16) (idFamily 8) (goodFamily_idFamily 16 (by decide)) rfl
    (goodFamily_idFamily 8 (by decide)) rfl (Encryption.aes (List.replicate 48 0))
    [1, 2, 3] [7] (by simp [tokenMatches])
    (by simp only [plaintextFits]; decide)

/-- Counterexample to C1 as stated: a plaintext of exactly 8 MiB is within
the claim's bound, but with an AES token the PKCS7-padded ciphertext is
8 MiB + 16 bytes, which the length-delimited encoder rejects — no bytes are
produced at all, so the round trip fails. -/
theorem claim_C1_counterexample :
    tokenMatches (Encryption.aes (List.replicate 48 0)) ∧
    (List.replicate MAX_FRAME_LEN 0).length ≤ MAX_FRAME_LEN ∧
    secureEncode (idFamily 16) (idFamily 8) (Encryption.aes (List.replicate 48 0))
      (List.replicate MAX_FRAME_LEN 0) = none := by
  refine ⟨by simp [tokenMatches], by simp, ?_⟩
  have hpres : ∀ b : List Nat, b.length = (idFamily 16).bs →
      ((idFamily 16).encB ((List.replicate 48 (0 : Nat)).take 32) b).length
        = (idFamily 16).bs :=
    fun _ hb => hb
  have hiv : ((List.replicate 48 (0 : Nat)).drop 32).length = (idFamily 16).bs := by
    simp [idFamily]
  have hctlen := cbcPkcs7Encrypt_length (idFamily 16).bs (by decide)
    ((idFamily 16).encB ((List.replicate 48 (0 : Nat)).take 32)) hpres
    ((List.replicate 48 (0 : Nat)).drop 32) (List.replicate MAX_FRAME_LEN 0) hiv
  have h48 : (List.replicate 48 (0 : Nat)).length = 48 := by simp
  have hlt : MAX_FRAME_LEN <
      (cbcPkcs7Encrypt (idFamily 16).bs
        ((idFamily 16).encB ((List.replicate 48 (0 : Nat)).take 32))
        ((List.replicate 48 (0 : Nat)).drop 32) (List.replicate MAX_FRAME_LEN 0)).length := by
    rw [hctlen, List.length_replicate]
    have hbs16 : (idFamily 16).bs = 16 := rfl
    rw [hbs16]
    unfold MAX_FRAME_LEN
    omega
  show ((if (List.replicate 48 (0 : Nat)).length = 48 then
      some (cbcPkcs7Encrypt (idFamily 16).bs
        ((idFamily 16).encB ((List.replicate 48 (0 : Nat)).take 32))
        ((List.replicate 48 (0 : Nat)).drop 32) (List.replicate MAX_FRAME_LEN 0))
    else none).bind lengthDelimitedEncode) = none
  rw [if_pos h48, option_some_bind]
  unfold lengthDelimitedEncode
  rw [if_pos hlt]

/-! ## Wire packets and bincode standard serialization
(`src/protocol/src/packet.rs`, `src/protocol/src/address.rs`; every packet
is serialized with `bincode::serde::encode_to_vec(..,
bincode::config::standard())` — little-endian, variable-length integer
encoding. Strings are modelled as their UTF-8 byte lists.) -/

/-- Little-endian byte decomposition of `n` into exactly `k` bytes. -/
def leBytesN : Nat → Nat → List Nat
  | 0, _ => []
  | k + 1, n => n % 256 :: leBytesN k (n / 256)

/-- Little-endian recomposition of a byte list. -/
def fromLeBytes : List Nat → Nat
  | [] => 0
  | b :: rest => b + 256 * fromLeBytes rest

theorem fromLeBytes_leBytesN : ∀ (k n : Nat), n < 256 ^ k →
    fromLeBytes (leBytesN k n) = n := by
  intro k
  induction k with
  | zero =>
    intro n h
    simp only [pow_zero] at h
    simp only [leBytesN, fromLeBytes]
    omega
  | succ k ih =>
    intro n h
    have hdiv : n / 256 < 256 ^ k := by
      have hpow : 256 ^ (k + 1) = 256 ^ k * 256 := by ring
      rw [hpow] at h
      omega
    simp only [leBytesN, fromLeBytes]
    rw [ih (n / 256) hdiv]
    omega

/-- The bincode `standard()` variable-length integer encoding: values below
251 are one byte; larger values get a marker byte (251 for 2 bytes, 252
for 4, 253 for 8) followed by that many little-endian bytes. -/
def bcVarint (n : Nat) : List Nat :=
  if n < 251 then [n]
  else if n < 2 ^ 16 then 251 :: leBytesN 2 n
  else if n < 2 ^ 32 then 252 :: leBytesN 4 n
  else 253 :: leBytesN 8 n

/-- Bincode `standard()` encodes an enum's variant index as a `u32` in the
variable-length integer encoding. -/
def bcU32Tag (n : Nat) : List Nat := bcVarint n

/-- Bincode `standard()` encodes a string's or byte sequence's length as a
`u64` (`usize`) in the variable-length integer encoding. -/
def bcU64Len (n : Nat) : List Nat := bcVarint n

/-- Parse one variable-length integer off a byte list, returning the value
and the unconsumed remainder. -/
def bcParseVarint : List Nat → Option (Nat × List Nat)
  | [] => none
  | b :: rest =>
    if b < 251 then some (b, rest)
    else if b = 251 then
      match rest with
      | b0 :: b1 :: r => some (fromLeBytes [b0, b1], r)
      | _ => none
    else if b = 252 then
      match rest with
      | b0 :: b1 :: b2 :: b3 :: r => some (fromLeBytes [b0, b1, b2, b3], r)
      | _ => none
    else if b = 253 then
      match rest with
      | b0 :: b1 :: b2 :: b3 :: b4 :: b5 :: b6 :: b7 :: r =>
        some (fromLeBytes [b0, b1, b2, b3, b4, b5, b6, b7], r)
      | _ => none
    else none

theorem bcParseVarint_bcVarint (n : Nat) (h : n < 2 ^ 64) (rest : List Nat) :
    bcParseVarint (bcVarint n ++ rest) = some (n, rest) := by
  by_cases h1 : n < 251
  · simp [bcVarint, bcParseVarint, h1]
  · by_cases h2 : n < 2 ^ 16
    · simp only [bcVarint, if_neg h1, if_pos h2, leBytesN,
        List.cons_append, List.nil_append, bcParseVarint]
      have hv : fromLeBytes [n % 256, n / 256 % 256] = n := by
        simp only [fromLeBytes]
        omega
      simp [hv]
    · by_cases h3 : n < 2 ^ 32
      · simp only [bcVarint, if_neg h1, if_neg h2, if_pos h3, leBytesN,
          List.cons_append, List.nil_append, bcParseVarint]
        have hv : fromLeBytes [n % 256, n / 256 % 256, n / 256 / 256 % 256,
            n / 256 / 256 / 256 % 256] = n := by
          simp only [fromLeBytes]
          omega
        simp [hv]
      · simp only [bcVarint, if_neg h1, if_neg h2, if_neg h3, leBytesN,
          List.cons_append, List.nil_append, bcParseVarint]
        have hv : fromLeBytes [n % 256, n / 256 % 256, n / 256 / 256 % 256,
            n / 256 / 256 / 256 % 256, n / 256 / 256 / 256 / 256 % 256,
            n / 256 / 256 / 256 / 256 / 256 % 256,
            n / 256 / 256 / 256 / 256 / 256 / 256 % 256,
            n / 256 / 256 / 256 / 256 / 256 / 256 / 256 % 256] = n := by
          simp only [fromLeBytes]
          omega
        simp [hv]

/-- A length-prefixed byte sequence, as bincode serializes `Bytes` and
`String` values: the `u64` length followed by the raw bytes. -/
def bcByteSeq (b : List Nat) : List Nat := bcU64Len b.length ++ b

/-- Parse a length-prefixed byte sequence. -/
def bcParseByteSeq (l : List Nat) : Option (List Nat × List Nat) :=
  match bcParseVarint l with
  | none => none
  | some (n, r) => if n ≤ r.length then some (r.take n, r.drop n) else none

theorem bcParseByteSeq_bcByteSeq (b rest : List Nat) (h : b.length < 2 ^ 64) :
    bcParseByteSeq (bcByteSeq b ++ rest) = some (b, rest) := by
  unfold bcByteSeq bcU64Len
  rw [List.append_assoc]
  unfold bcParseByteSeq
  rw [bcParseVarint_bcVarint b.length h (b ++ rest)]
  have hle : b.length ≤ (b ++ rest).length := by
    simp
  show (if b.length ≤ (b ++ rest).length then
      some ((b ++ rest).take b.length, (b ++ rest).drop b.length) else none)
    = some (b, rest)
  rw [if_pos hle, List.take_left, List.drop_left]

/-- The `Username` newtype of `src/protocol/src/lib.rs`; bincode serializes
a newtype struct as its inner value. The inner `String` is modelled as its
UTF-8 byte list. -/
structure Username where
  name : List Nat
deriving DecidableEq, Repr

/-- Socket addresses as serde serializes `std::net::SocketAddr`: an enum
with variants `V4(ip4, port)` and `V6(ip6, port)`, the IP serialized as its
raw octets. -/
inductive SockAddr where
  | v4 (o1 o2 o3 o4 : Nat) (port : Nat)
  | v6 (octets : List Nat) (port : Nat)
deriving DecidableEq, Repr

/-- The `UnifiedAddress` enum of `src/protocol/src/address.rs`. -/
inductive UnifiedAddress where
  | domain (host : List Nat) (port : Nat)
  | socketAddress (sa : SockAddr)
deriving DecidableEq, Repr

/-- The `HandshakeRequest` struct of `src/protocol/src/packet.rs`. -/
structure HandshakeRequest where
  username : Username
  encryption : Encryption
deriving DecidableEq, Repr

/-- The `HandshakeResponse` struct of `src/protocol/src/packet.rs`. -/
structure HandshakeResponse where
  encryption : Encryption
deriving DecidableEq, Repr

/-- The `ConnectDestinationRequest` enum of `src/protocol/src/packet.rs`. -/
inductive ConnectDestinationRequest where
  | tcp (a : UnifiedAddress)
  | udp (a : UnifiedAddress)
deriving DecidableEq, Repr

/-- The `ConnectDestinationResponse` enum of `src/protocol/src/packet.rs`. -/
inductive ConnectDestinationResponse where
  | success
  | fail
deriving DecidableEq, Repr

/-- Bincode standard serialization of `Encryption`: `u32` variant tag
(0 = `Plain`, 1 = `Aes`, 2 = `Blowfish`), then the length-prefixed token
bytes. -/
def encodeEncryption : Encryption → List Nat
  | .plain => bcU32Tag 0
  | .aes t => bcU32Tag 1 ++ bcByteSeq t
  | .blowfish t => bcU32Tag 2 ++ bcByteSeq t

/-- Bincode standard serialization of a `SocketAddr`: `u32` variant tag
(0 = `V4`, 1 = `V6`), the raw IP octets, then the port. -/
def encodeSockAddr : SockAddr → List Nat
  | .v4 o1 o2 o3 o4 port => bcU32Tag 0 ++ [o1, o2, o3, o4] ++ bcVarint port
  | .v6 octets port => bcU32Tag 1 ++ octets ++ bcVarint port

/-- Bincode standard serialization of `UnifiedAddress`: `u32` variant tag
(0 = `Domain`, 1 = `SocketAddress`), then the fields. -/
def encodeUnifiedAddress : UnifiedAddress → List Nat
  | .domain host port => bcU32Tag 0 ++ bcByteSeq host ++ bcVarint port
  | .socketAddress sa => bcU32Tag 1 ++ encodeSockAddr sa

/-- Bincode standard serialization of `HandshakeRequest` (`TryFrom<
HandshakeRequest> for Vec<u8>`): the struct fields in order — the
length-prefixed username string, then the encryption. -/
def encodeHandshakeRequest (r : HandshakeRequest) : List Nat :=
  bcByteSeq r.username.name ++ encodeEncryption r.encryption

/-- Bincode standard serialization of `HandshakeResponse`. -/
def encodeHandshakeResponse (r : HandshakeResponse) : List Nat :=
  encodeEncryption r.encryption

/-- Bincode standard serialization of `ConnectDestinationRequest`: `u32`
variant tag (0 = `Tcp`, 1 = `Udp`), then the address. -/
def encodeConnectDestinationRequest : ConnectDestinationRequest → List Nat
  | .tcp a => bcU32Tag 0 ++ encodeUnifiedAddress a
  | .udp a => bcU32Tag 1 ++ encodeUnifiedAddress a

/-- Bincode standard serialization of `ConnectDestinationResponse`: `u32`
variant tag (0 = `Success`, 1 = `Fail`) and no payload. -/
def encodeConnectDestinationResponse : ConnectDestinationResponse → List Nat
  | .success => bcU32Tag 0
  | .fail => bcU32Tag 1

/-- Bincode standard deserialization of `Encryption`. -/
def decodeEncryption (l : List Nat) : Option (Encryption × List Nat) :=
  match bcParseVarint l with
  | none => none
  | some (tag, r) =>
    if tag = 0 then some (.plain, r)
    else if tag = 1 then
      match bcParseByteSeq r with
      | none => none
      | some (t, r2) => some (.aes t, r2)
    else if tag = 2 then
      match bcParseByteSeq r with
      | none => none
      | some (t, r2) => some (.blowfish t, r2)
    else none

/-- Bincode standard deserialization of a `SocketAddr`. -/
def decodeSockAddr (l : List Nat) : Option (SockAddr × List Nat) :=
  match bcParseVarint l with
  | none => none
  | some (tag, r) =>
    if tag = 0 then
      match r with
      | o1 :: o2 :: o3 :: o4 :: r2 =>
        match bcParseVarint r2 with
        | none => none
        | some (port, r3) => some (.v4 o1 o2 o3 o4 port, r3)
      | _ => none
    else if tag = 1 then
      if 16 ≤ r.length then
        match bcParseVarint (r.drop 16) with
        | none => none
        | some (port, r3) => some (.v6 (r.take 16) port, r3)
      else none
    else none

/-- Bincode standard deserialization of `UnifiedAddress`. -/
def decodeUnifiedAddress (l : List Nat) : Option (UnifiedAddress × List Nat) :=
  match bcParseVarint l with
  | none => none
  | some (tag, r) =>
    if tag = 0 then
      match bcParseByteSeq r with
      | none => none
      | some (host, r2) =>
        match bcParseVarint r2 with
        | none => none
        | some (port, r3) => some (.domain host port, r3)
    else if tag = 1 then
      match decodeSockAddr r with
      | none => none
      | some (sa, r2) => some (.socketAddress sa, r2)
    else none

/-- Bincode standard deserialization of `HandshakeRequest`. -/
def decodeHandshakeRequest (l : List Nat) : Option (HandshakeRequest × List Nat) :=
  match bcParseByteSeq l with
  | none => none
  | some (name, r) =>
    match decodeEncryption r with
    | none => none
    | some (e, r2) => some (⟨⟨name⟩, e⟩, r2)

/-- Bincode standard deserialization of `HandshakeResponse`. -/
def decodeHandshakeResponse (l : List Nat) : Option (HandshakeResponse × List Nat) :=
  match decodeEncryption l with
  | none => none
  | some (e, r) => some (⟨e⟩, r)

/-- Bincode standard deserialization of `ConnectDestinationRequest`. -/
def decodeConnectDestinationRequest (l : List Nat) :
    Option (ConnectDestinationRequest × List Nat) :=
  match bcParseVarint l with
  | none => none
  | some (tag, r) =>
    if tag = 0 then
      match decodeUnifiedAddress r with
      | none => none
      | some (a, r2) => some (.tcp a, r2)
    else if tag = 1 then
      match decodeUnifiedAddress r with
      | none => none
      | some (a, r2) => some (.udp a, r2)
    else none

/-- Bincode standard deserialization of `ConnectDestinationResponse`. -/
def decodeConnectDestinationResponse (l : List Nat) :
    Option (ConnectDestinationResponse × List Nat) :=
  match bcParseVarint l with
  | none => none
  | some (tag, r) =>
    if tag = 0 then some (.success, r)
    else if tag = 1 then some (.fail, r)
    else none

/-- Well-formedness of an `Encryption` value for serialization: the token
fits a `u64` length (true of every real `Bytes` value). -/
def wfEncryption : Encryption → Prop
  | .plain => True
  | .aes t => t.length < 2 ^ 64
  | .blowfish t => t.length < 2 ^ 64

/-- Well-formedness of a `SockAddr` for serialization: a V6 address has
exactly 16 octets; ports fit (`u16` in the source type, so below `2 ^ 64`
certainly holds). -/
def wfSockAddr : SockAddr → Prop
  | .v4 _ _ _ _ port => port < 2 ^ 64
  | .v6 octets port => octets.length = 16 ∧ port < 2 ^ 64

/-- Well-formedness of a `UnifiedAddress` for serialization: lengths fit a
`u64` and the socket-address component is well formed. -/
def wfAddr : UnifiedAddress → Prop
  | .domain host port => host.length < 2 ^ 64 ∧ port < 2 ^ 64
  | .socketAddress sa => wfSockAddr sa

theorem decodeEncryption_encodeEncryption (e : Encryption) (rest : List Nat)
    (h : wfEncryption e) :
    decodeEncryption (encodeEncryption e ++ rest) = some (e, rest) := by
  cases e with
  | plain =>
    unfold encodeEncryption bcU32Tag decodeEncryption
    rw [bcParseVarint_bcVarint 0 (by norm_num) rest]
    rfl
  | aes t =>
    simp only [wfEncryption] at h
    unfold encodeEncryption bcU32Tag decodeEncryption
    rw [List.append_assoc, bcParseVarint_bcVarint 1 (by norm_num) (bcByteSeq t ++ rest)]
    show (if (1 : Nat) = 0 then some (Encryption.plain, bcByteSeq t ++ rest)
      else if (1 : Nat) = 1 then
        match bcParseByteSeq (bcByteSeq t ++ rest) with
        | none => none
        | some (t2, r2) => some (.aes t2, r2)
      else if (1 : Nat) = 2 then
        match bcParseByteSeq (bcByteSeq t ++ rest) with
        | none => none
        | some (t2, r2) => some (.blowfish t2, r2)
      else none) = some (Encryption.aes t, rest)
    rw [if_neg (by omega), if_pos rfl, bcParseByteSeq_bcByteSeq t rest h]
  | blowfish t =>
    simp only [wfEncryption] at h
    unfold encodeEncryption bcU32Tag decodeEncryption
    rw [List.append_assoc, bcParseVarint_bcVarint 2 (by norm_num) (bcByteSeq t ++ rest)]
    show (if (2 : Nat) = 0 then some (Encryption.plain, bcByteSeq t ++ rest)
      else if (2 : Nat) = 1 then
        match bcParseByteSeq (bcByteSeq t ++ rest) with
        | none => none
        | some (t2, r2) => some (.aes t2, r2)
      else if (2 : Nat) = 2 then
        match bcParseByteSeq (bcByteSeq t ++ rest) with
        | none => none
        | some (t2, r2) => some (.blowfish t2, r2)
      else none) = some (Encryption.blowfish t, rest)
    rw [if_neg (by omega), if_neg (by omega), if_pos rfl, bcParseByteSeq_bcByteSeq t rest h]

theorem decodeSockAddr_encodeSockAddr (sa : SockAddr) (rest : List Nat)
    (h : wfSockAddr sa) :
    decodeSockAddr (encodeSockAddr sa ++ rest) = some (sa, rest) := by
  cases sa with
  | v4 o1 o2 o3 o4 port =>
    simp only [wfSockAddr] at h
    unfold encodeSockAddr bcU32Tag decodeSockAddr
    rw [List.append_assoc, List.append_assoc,
      bcParseVarint_bcVarint 0 (by norm_num) ([o1, o2, o3, o4] ++ (bcVarint port ++ rest))]
    show (match bcParseVarint (bcVarint port ++ rest) with
      | none => none
      | some (p2, r3) => some (SockAddr.v4 o1 o2 o3 o4 p2, r3))
      = some (SockAddr.v4 o1 o2 o3 o4 port, rest)
    rw [bcParseVarint_bcVarint port h rest]
  | v6 octets port =>
    obtain ⟨h16, hport⟩ := h
    unfold encodeSockAddr bcU32Tag decodeSockAddr
    rw [List.append_assoc, List.append_assoc,
      bcParseVarint_bcVarint 1 (by norm_num) (octets ++ (bcVarint port ++ rest))]
    have hdrop : (octets ++ (bcVarint port ++ rest)).drop 16 = bcVarint port ++ rest :=
      List.drop_left' h16
    have htake : (octets ++ (bcVarint port ++ rest)).take 16 = octets :=
      List.take_left' h16
    have hlen : 16 ≤ (octets ++ (bcVarint port ++ rest)).length := by
      simp [h16]
    show (if (1 : Nat) = 0 then
        match octets ++ (bcVarint port ++ rest) with
        | o1 :: o2 :: o3 :: o4 :: r2 =>
          match bcParseVarint r2 with
          | none => none
          | some (p2, r3) => some (SockAddr.v4 o1 o2 o3 o4 p2, r3)
        | _ => none
      else if (1 : Nat) = 1 then
        if 16 ≤ (octets ++ (bcVarint port ++ rest)).length then
          match bcParseVarint ((octets ++ (bcVarint port ++ rest)).drop 16) with
          | none => none
          | some (p2, r3) => some (SockAddr.v6 ((octets ++ (bcVarint port ++ rest)).take 16) p2, r3)
        else none
      else none) = some (SockAddr.v6 octets port, rest)
    rw [if_neg (by omega), if_pos rfl, if_pos hlen, hdrop, htake,
      bcParseVarint_bcVarint port hport rest]

theorem decodeUnifiedAddress_encodeUnifiedAddress (a : UnifiedAddress) (rest : List Nat)
    (h : wfAddr a) :
    decodeUnifiedAddress (encodeUnifiedAddress a ++ rest) = some (a, rest) := by
  cases a with
  | domain host port =>
    obtain ⟨hhost, hport⟩ := h
    unfold encodeUnifiedAddress bcU32Tag decodeUnifiedAddress
    rw [List.append_assoc, List.append_assoc,
      bcParseVarint_bcVarint 0 (by norm_num) (bcByteSeq host ++ (bcVarint port ++ rest))]
    show (match bcParseByteSeq (bcByteSeq host ++ (bcVarint port ++ rest)) with
      | none => none
      | some (h2, r2) =>
        match bcParseVarint r2 with
        | none => none
        | some (p2, r3) => some (UnifiedAddress.domain h2 p2, r3))
      = some (UnifiedAddress.domain host port, rest)
    rw [bcParseByteSeq_bcByteSeq host (bcVarint port ++ rest) hhost]
    show (match bcParseVarint (bcVarint port ++ rest) with
      | none => none
      | some (p2, r3) => some (UnifiedAddress.domain host p2, r3))
      = some (UnifiedAddress.domain host port, rest)
    rw [bcParseVarint_bcVarint port hport rest]
  | socketAddress sa =>
    unfold encodeUnifiedAddress bcU32Tag decodeUnifiedAddress
    rw [List.append_assoc,
      bcParseVarint_bcVarint 1 (by norm_num) (encodeSockAddr sa ++ rest)]
    show (if (1 : Nat) = 0 then
        match bcParseByteSeq (encodeSockAddr sa ++ rest) with
        | none => none
        | some (h2, r2) =>
          match bcParseVarint r2 with
          | none => none
          | some (p2, r3) => some (UnifiedAddress.domain h2 p2, r3)
      else if (1 : Nat) = 1 then
        match decodeSockAddr (encodeSockAddr sa ++ rest) with
        | none => none
        | some (sa2, r2) => some (UnifiedAddress.socketAddress sa2, r2)
      else none) = some (UnifiedAddress.socketAddress sa, rest)
    rw [if_neg (by omega), if_pos rfl, decodeSockAddr_encodeSockAddr sa rest h]

theorem decodeHandshakeRequest_encodeHandshakeRequest (r : HandshakeRequest)
    (rest : List Nat) (hname : r.username.name.length < 2 ^ 64)
    (henc : wfEncryption r.encryption) :
    decodeHandshakeRequest (encodeHandshakeRequest r ++ rest) = some (r, rest) := by
  obtain ⟨⟨name⟩, e⟩ := r
  unfold encodeHandshakeRequest decodeHandshakeRequest
  rw [List.append_assoc,
    bcParseByteSeq_bcByteSeq name (encodeEncryption e ++ rest) hname]
  show (match decodeEncryption (encodeEncryption e ++ rest) with
    | none => none
    | some (e2, r2) => some ((⟨⟨name⟩, e2⟩ : HandshakeRequest), r2))
    = some ((⟨⟨name⟩, e⟩ : HandshakeRequest), rest)
  rw [decodeEncryption_encodeEncryption e rest henc]

theorem decodeHandshakeResponse_encodeHandshakeResponse (r : HandshakeResponse)
    (rest : List Nat) (henc : wfEncryption r.encryption) :
    decodeHandshakeResponse (encodeHandshakeResponse r ++ rest) = some (r, rest) := by
  obtain ⟨e⟩ := r
  unfold encodeHandshakeResponse decodeHandshakeResponse
  rw [decodeEncryption_encodeEncryption e rest henc]

/-- Well-formedness of a `ConnectDestinationRequest` for serialization. -/
def wfConnReq : ConnectDestinationRequest → Prop
  | .tcp a => wfAddr a
  | .udp a => wfAddr a

theorem decodeConnReq_encodeConnReq (q : ConnectDestinationRequest) (rest : List Nat)
    (h : wfConnReq q) :
    decodeConnectDestinationRequest (encodeConnectDestinationRequest q ++ rest)
      = some (q, rest) := by
  cases q with
  | tcp a =>
    unfold encodeConnectDestinationRequest bcU32Tag decodeConnectDestinationRequest
    rw [List.append_assoc,
      bcParseVarint_bcVarint 0 (by norm_num) (encodeUnifiedAddress a ++ rest)]
    show (match decodeUnifiedAddress (encodeUnifiedAddress a ++ rest) with
      | none => none
      | some (a2, r2) => some (ConnectDestinationRequest.tcp a2, r2))
      = some (ConnectDestinationRequest.tcp a, rest)
    rw [decodeUnifiedAddress_encodeUnifiedAddress a rest h]
  | udp a =>
    unfold encodeConnectDestinationRequest bcU32Tag decodeConnectDestinationRequest
    rw [List.append_assoc,
      bcParseVarint_bcVarint 1 (by norm_num) (encodeUnifiedAddress a ++ rest)]
    show (if (1 : Nat) = 0 then
        match decodeUnifiedAddress (encodeUnifiedAddress a ++ rest) with
        | none => none
        | some (a2, r2) => some (ConnectDestinationRequest.tcp a2, r2)
      else if (1 : Nat) = 1 then
        match decodeUnifiedAddress (encodeUnifiedAddress a ++ rest) with
        | none => none
        | some (a2, r2) => some (ConnectDestinationRequest.udp a2, r2)
      else none) = some (ConnectDestinationRequest.udp a, rest)
    rw [if_neg (by omega), if_pos rfl, decodeUnifiedAddress_encodeUnifiedAddress a rest h]

theorem decodeConnResp_encodeConnResp (p : ConnectDestinationResponse) (rest : List Nat) :
    decodeConnectDestinationResponse (encodeConnectDestinationResponse p ++ rest)
      = some (p, rest) := by
  cases p with
  | success =>
    unfold encodeConnectDestinationResponse bcU32Tag decodeConnectDestinationResponse
    rw [bcParseVarint_bcVarint 0 (by norm_num) rest]
    rfl
  | fail =>
    unfold encodeConnectDestinationResponse bcU32Tag decodeConnectDestinationResponse
    rw [bcParseVarint_bcVarint 1 (by norm_num) rest]
    show (if (1 : Nat) = 0 then some (ConnectDestinationResponse.success, rest)
      else if (1 : Nat) = 1 then some (ConnectDestinationResponse.fail, rest)
      else none) = some (ConnectDestinationResponse.fail, rest)
    rw [if_neg (by omega), if_pos rfl]

/-- Claim C3: every wire packet (HandshakeRequest, HandshakeResponse,
ConnectDestinationRequest, ConnectDestinationResponse) is serialized
deterministically in the little-endian tagged length-prefixed bincode
`standard()` encoding: enum variants carry their `u32` variant index
(variable-length encoded), strings and byte sequences carry a `u64` length
prefix, and the encoding is lossless — decoding the serialized packet
returns exactly the packet and consumes exactly its bytes. -/
theorem claim_C3 :
    (∀ t : List Nat, encodeEncryption (Encryption.aes t)
      = bcU32Tag 1 ++ (bcU64Len t.length ++ t)) ∧
    (∀ r : HandshakeRequest, encodeHandshakeRequest r
      = (bcU64Len r.username.name.length ++ r.username.name)
          ++ encodeEncryption r.encryption) ∧
    (∀ a : UnifiedAddress, encodeConnectDestinationRequest (.tcp a)
      = bcU32Tag 0 ++ encodeUnifiedAddress a) ∧
    (∀ a : UnifiedAddress, encodeConnectDestinationRequest (.udp a)
      = bcU32Tag 1 ++ encodeUnifiedAddress a) ∧
    (encodeConnectDestinationResponse .success = bcU32Tag 0 ∧
      encodeConnectDestinationResponse .fail = bcU32Tag 1) ∧
    (∀ (r : HandshakeRequest) (rest : List Nat), r.username.name.length < 2 ^ 64 →
      wfEncryption r.encryption →
      decodeHandshakeRequest (encodeHandshakeRequest r ++ rest) = some (r, rest)) ∧
    (∀ (r : HandshakeResponse) (rest : List Nat), wfEncryption r.encryption →
      decodeHandshakeResponse (encodeHandshakeResponse r ++ rest) = some (r, rest)) ∧
    (∀ (q : ConnectDestinationRequest) (rest : List Nat), wfConnReq q →
      decodeConnectDestinationRequest (encodeConnectDestinationRequest q ++ rest)
        = some (q, rest)) ∧
    (∀ (p : ConnectDestinationResponse) (rest : List Nat),
      decodeConnectDestinationResponse (encodeConnectDestinationResponse p ++ rest)
        = some (p, rest)) :=
  ⟨fun _ => rfl, fun _ => rfl, fun _ => rfl, fun _ => rfl, ⟨rfl, rfl⟩,
    decodeHandshakeRequest_encodeHandshakeRequest,
    decodeHandshakeResponse_encodeHandshakeResponse,
    decodeConnReq_encodeConnReq,
    decodeConnResp_encodeConnResp⟩

/-- Witness for C3 at concrete packets: a handshake request for username
bytes `[97, 98]` with an AES token `[1, 2]`, and a TCP connect request to
domain `[104]` port 80, each followed by a trailing byte. -/
theorem claim_C3_witness :
    decodeHandshakeRequest (encodeHandshakeRequest
        ⟨⟨[97, 98]⟩, Encryption.aes [1, 2]⟩ ++ [9])
      = some (⟨⟨[97, 98]⟩, Encryption.aes [1, 2]⟩, [9]) ∧
    decodeConnectDestinationRequest (encodeConnectDestinationRequest
        (.tcp (.domain [104] 80)) ++ [5])
      = some (.tcp (.domain [104] 80), [5]) :=
  ⟨claim_C3.2.2.2.2.2.1 ⟨⟨[97, 98]⟩, Encryption.aes [1, 2]⟩ [9]
      (by decide)
      (by show ([1, 2] : List Nat).length < 2 ^ 64; decide),
    claim_C3.2.2.2.2.2.2.2.1 (.tcp (.domain [104] 80)) [5]
      (by show ([104] : List Nat).length < 2 ^ 64 ∧ (80 : Nat) < 2 ^ 64; decide)⟩

/-! ## Handshake and destination-setup control flow
(`src/proxy/src/tunnel.rs` responder side, `src/common/src/proxy.rs`
initiator side, RSA wrapping from `src/common/src/lib.rs`). The flows are
modelled at message level: frames already decoded to packets, the fresh
tokens from `random_generate_encryption` passed as parameters, and the RSA
primitives (external `rsa` crate) as an abstract keypair oracle. -/

/-- Abstract RSA keypair oracle for one user (the `rsa` crate is external):
`encrypt` with the public key, `decrypt` with the private key. -/
structure RsaCrypto where
  encrypt : List Nat → List Nat
  decrypt : List Nat → List Nat

/-- Embedding of `rsa_encrypt_encryption` (`src/common/src/lib.rs`):
`Plain` passes through; `Aes`/`Blowfish` tokens are RSA-encrypted in
place. -/
def rsa_encrypt_encryption (rsa : RsaCrypto) : Encryption → Encryption
  | .plain => .plain
  | .aes token => .aes (rsa.encrypt token)
  | .blowfish token => .blowfish (rsa.encrypt token)

/-- Embedding of `rsa_decrypt_encryption` (`src/common/src/lib.rs`). -/
def rsa_decrypt_encryption (rsa : RsaCrypto) : Encryption → Encryption
  | .plain => .plain
  | .aes token => .aes (rsa.decrypt token)
  | .blowfish token => .blowfish (rsa.decrypt token)

theorem rsa_decrypt_rsa_encrypt (rsa : RsaCrypto)
    (hinv : ∀ t, rsa.decrypt (rsa.encrypt t) = t) (e : Encryption) :
    rsa_decrypt_encryption rsa (rsa_encrypt_encryption rsa e) = e := by
  cases e with
  | plain => rfl
  | aes token => simp [rsa_encrypt_encryption, rsa_decrypt_encryption, hinv]
  | blowfish token => simp [rsa_encrypt_encryption, rsa_decrypt_encryption, hinv]

/-- A user record as the handshake sees it (`common::user::User` trait):
the username and the optional RSA keypair (`rsa_crypto()` returns an
`Option`). -/
structure UserInfo where
  username : Username
  rsa_crypto : Option RsaCrypto

/-- The `common::error::Error` variants the handshake and setup flows
produce. -/
inductive CommonError where
  | userNotExist (username : Username)
  | userRsaCryptoNotExist (username : Username)
  | connectionExhausted
  | connectTimeout (secs : Nat)
  | decodeFail
deriving DecidableEq, Repr

/-- The message-level result of the responder's handshake
(`HandshakeResult` in `src/proxy/src/tunnel.rs`). -/
structure HandshakeResult where
  client_username : Username
  client_encryption : Encryption
  server_encryption : Encryption

/-- Embedding of `process_handshake` (`src/proxy/src/tunnel.rs`): read the
client handshake (`none` models a closed or undecodable stream), look the
username up in the user repository, require the user's RSA crypto,
RSA-decrypt the client token, then RSA-encrypt the freshly generated
server token and send it back. The first component is the list of
`HandshakeResponse` messages written to the wire, in order. -/
def process_handshake (find_user : Username → Option UserInfo)
    (incoming : Option HandshakeRequest) (server_encryption : Encryption) :
    List HandshakeResponse × Except CommonError HandshakeResult :=
  match incoming with
  | none => ([], .error .connectionExhausted)
  | some ch =>
    match find_user ch.username with
    | none => ([], .error (.userNotExist ch.username))
    | some user =>
      match user.rsa_crypto with
      | none => ([], .error (.userRsaCryptoNotExist ch.username))
      | some rsa =>
        ([⟨rsa_encrypt_encryption rsa server_encryption⟩],
          .ok ⟨ch.username, rsa_decrypt_encryption rsa ch.encryption, server_encryption⟩)

/-- The codec `process_setup_destination` (`src/proxy/src/tunnel.rs`)
installs after the handshake:
`SecureLengthDelimitedCodec::new(Cow::Owned(client_encryption),
Cow::Owned(server_encryption))` — decode with the client's token, encode
with the server's token. -/
def proxy_post_handshake_codec (hr : HandshakeResult) : SecureCodecKeys :=
  ⟨hr.client_encryption, hr.server_encryption⟩

/-- Embedding of `ProxyConnection::new` (`src/common/src/proxy.rs`),
initiator side: require the user's RSA crypto, send a `HandshakeRequest`
carrying the RSA-encrypted fresh agent token, read the response (`none`
models a closed stream), RSA-decrypt the proxy token, and install
`SecureLengthDelimitedCodec::new(Cow::Owned(proxy_encryption),
Cow::Owned(agent_encryption))`. The first component is the list of
`HandshakeRequest` messages written to the wire, in order. -/
def proxy_connection_new (user : UserInfo) (agent_encryption : Encryption)
    (resp : Option HandshakeResponse) :
    List HandshakeRequest × Except CommonError SecureCodecKeys :=
  match user.rsa_crypto with
  | none => ([], .error (.userRsaCryptoNotExist user.username))
  | some rsa =>
    match resp with
    | none => ([⟨user.username, rsa_encrypt_encryption rsa agent_encryption⟩],
        .error .connectionExhausted)
    | some sh =>
      ([⟨user.username, rsa_encrypt_encryption rsa agent_encryption⟩],
        .ok ⟨rsa_decrypt_encryption rsa sh.encryption, agent_encryption⟩)

/-- The complete handshake exchange: the agent builds its request from its
fresh token, the proxy processes it and answers with its own fresh token,
and the agent consumes the response. Returns the agent-side and proxy-side
codec key pairs. -/
def handshake_exchange (find_user : Username → Option UserInfo) (user : UserInfo)
    (agent_encryption server_encryption : Encryption) :
    Except CommonError (SecureCodecKeys × SecureCodecKeys) :=
  match user.rsa_crypto with
  | none => .error (.userRsaCryptoNotExist user.username)
  | some rsa =>
    match process_handshake find_user
        (some ⟨user.username, rsa_encrypt_encryption rsa agent_encryption⟩)
        server_encryption with
    | (_, .error e) => .error e
    | (sent, .ok hr) =>
      match sent with
      | [resp] =>
        match proxy_connection_new user agent_encryption (some resp) with
        | (_, .error e) => .error e
        | (_, .ok agentCodec) => .ok (agentCodec, proxy_post_handshake_codec hr)
      | _ => .error .connectionExhausted

/-- Claim C4: after a successful handshake each side installs a codec whose
decode key is the peer's freshly generated token and whose encode key is
its own freshly generated token — the agent decodes with the proxy's token
and encodes with the agent's token, and the proxy decodes with the client's
token and encodes with the server's token. The RSA oracle is assumed to be
a correct keypair (decrypt inverts encrypt). -/
theorem claim_C4 (find_user : Username → Option UserInfo) (user : UserInfo)
    (rsa : RsaCrypto) (agent_encryption server_encryption : Encryption)
    (hrsa : user.rsa_crypto = some rsa)
    (hinv : ∀ t, rsa.decrypt (rsa.encrypt t) = t)
    (hfind : find_user user.username = some user) :
    handshake_exchange find_user user agent_encryption server_encryption
      = .ok (⟨server_encryption, agent_encryption⟩,
             ⟨agent_encryption, server_encryption⟩) := by
  unfold handshake_exchange process_handshake proxy_connection_new proxy_post_handshake_codec
  simp only [hrsa, hfind, rsa_decrypt_rsa_encrypt rsa hinv]

/-- Witness for C4 at a concrete input: one user with an identity RSA
oracle, an AES agent token, a Blowfish server token. -/
theorem claim_C4_witness :
    handshake_exchange
      (fun _ => some ⟨⟨[97]⟩, some ⟨fun t => t, fun t => t⟩⟩)
      ⟨⟨[97]⟩, some ⟨fun t => t, fun t => t⟩⟩
      (Encryption.aes [1]) (Encryption.blowfish [2])
      = .ok (⟨Encryption.blowfish [2], Encryption.aes [1]⟩,
             ⟨Encryption.aes [1], Encryption.blowfish [2]⟩) :=
  claim_C4 (fun _ => some ⟨⟨[97]⟩, some ⟨fun t => t, fun t => t⟩⟩)
    ⟨⟨[97]⟩, some ⟨fun t => t, fun t => t⟩⟩ ⟨fun t => t, fun t => t⟩
    (Encryption.aes [1]) (Encryption.blowfish [2]) rfl (fun _ => rfl) rfl

/-- Claim C5: when the requested username is absent from the responder's
user repository, or the user record lacks RSA crypto, `process_handshake`
fails with the corresponding typed error and writes no `HandshakeResponse`
to the wire. -/
theorem claim_C5 (find_user : Username → Option UserInfo) (ch : HandshakeRequest)
    (server_encryption : Encryption)
    (hbad : find_user ch.username = none ∨
      ∃ u, find_user ch.username = some u ∧ u.rsa_crypto = none) :
    (process_handshake find_user (some ch) server_encryption).1 = [] ∧
    ((process_handshake find_user (some ch) server_encryption).2
        = .error (.userNotExist ch.username) ∨
      (process_handshake find_user (some ch) server_encryption).2
        = .error (.userRsaCryptoNotExist ch.username)) := by
  rcases hbad with hnone | ⟨u, hu, hcrypto⟩
  · simp [process_handshake, hnone]
  · simp [process_handshake, hu, hcrypto]

/-- Witness for C5 at a concrete input: a user repository with no users
(username bytes `[103]` absent). -/
theorem claim_C5_witness :
    (process_handshake (fun _ => none)
        (some ⟨⟨[103]⟩, Encryption.plain⟩) Encryption.plain).1 = [] ∧
    ((process_handshake (fun _ => none)
        (some ⟨⟨[103]⟩, Encryption.plain⟩) Encryption.plain).2
        = .error (.userNotExist ⟨[103]⟩) ∨
      (process_handshake (fun _ => none)
        (some ⟨⟨[103]⟩, Encryption.plain⟩) Encryption.plain).2
        = .error (.userRsaCryptoNotExist ⟨[103]⟩)) :=
  claim_C5 (fun _ => none) ⟨⟨[103]⟩, Encryption.plain⟩ Encryption.plain (Or.inl rfl)

/-! ## Proxy destination setup, direct mode
(`src/proxy/src/tunnel.rs` `process_setup_destination` with no forward
configuration, and `src/proxy/src/destination/tcp.rs`
`TcpDestEndpoint::connect`). -/

/-- The error surface of the proxy tunnel flow. Every failure inside
`TcpDestEndpoint::connect` (address resolution, connect timeout, connect
refusal) makes the spawned task return without sending the stream, so the
caller surfaces `Error::Unknown` from the dropped oneshot sender. -/
inductive ProxyError where
  | common (e : CommonError)
  | unknown
deriving DecidableEq

/-- Outcome of the TCP connection attempt to the destination. -/
inductive TcpConnectOutcome where
  | connected
  | resolveFailed
  | timedOut
  | connectFailed
deriving DecidableEq, Repr

/-- Embedding of `TcpDestEndpoint::connect` (`src/proxy/src/destination/tcp.rs`):
only a successful connection yields an endpoint; resolution failure,
timeout and connect error all surface as `Error::Unknown`. -/
def tcp_dest_connect : TcpConnectOutcome → Except ProxyError Unit
  | .connected => .ok ()
  | .resolveFailed => .error .unknown
  | .timedOut => .error .unknown
  | .connectFailed => .error .unknown

/-- The destination bound by the proxy (`Destination` in
`src/proxy/src/destination/mod.rs`), direct mode. -/
inductive DestinationKind where
  | tcp (dst : UnifiedAddress)
  | udp (dst : UnifiedAddress)
deriving DecidableEq, Repr

/-- Embedding of the direct-mode branch of `process_setup_destination`
(`src/proxy/src/tunnel.rs`): for a TCP request, connect to the destination
— on failure the `?` operator propagates the error with nothing sent; only
after the destination is bound is `ServerSetupDestination::Success`
(`ConnectDestinationResponse::Success`) sent. For a UDP request an
ephemeral socket is bound and `Success` is sent. The first component is
the list of `ConnectDestinationResponse` messages written to the wire, in
order. -/
def process_setup_destination_direct (req : ConnectDestinationRequest)
    (connect_outcome : TcpConnectOutcome) :
    List ConnectDestinationResponse × Except ProxyError DestinationKind :=
  match req with
  | .tcp dst =>
    match tcp_dest_connect connect_outcome with
    | .error e => ([], .error e)
    | .ok _ => ([.success], .ok (.tcp dst))
  | .udp dst => ([.success], .ok (.udp dst))

/-- Counterexample to C2 as stated: when the TCP connect to the destination
times out, the proxy sends no `ConnectDestinationResponse` at all — in
particular no `Fail` — and propagates the error, closing the tunnel. -/
theorem claim_C2_counterexample :
    (process_setup_destination_direct
      (ConnectDestinationRequest.tcp (UnifiedAddress.domain [104] 80))
      TcpConnectOutcome.timedOut).1 = [] ∧
    ConnectDestinationResponse.fail ∉
      (process_setup_destination_direct
        (ConnectDestinationRequest.tcp (UnifiedAddress.domain [104] 80))
        TcpConnectOutcome.timedOut).1 ∧
    (process_setup_destination_direct
      (ConnectDestinationRequest.tcp (UnifiedAddress.domain [104] 80))
      TcpConnectOutcome.timedOut).2 = Except.error ProxyError.unknown :=
  ⟨rfl, by simp [process_setup_destination_direct, tcp_dest_connect], rfl⟩

/-- Claim C2 (amended): in direct mode, when the proxy fails to connect to
the requested TCP destination it sends no response at all (never `Fail`)
and closes the tunnel with the propagated error; a `Success` response is
sent only when the destination connection was established. -/
theorem claim_C2 (dst : UnifiedAddress) (co : TcpConnectOutcome) :
    (co ≠ TcpConnectOutcome.connected →
      process_setup_destination_direct (ConnectDestinationRequest.tcp dst) co
        = ([], .error .unknown)) ∧
    (ConnectDestinationResponse.fail ∉
      (process_setup_destination_direct (ConnectDestinationRequest.tcp dst) co).1) ∧
    (ConnectDestinationResponse.success ∈
        (process_setup_destination_direct (ConnectDestinationRequest.tcp dst) co).1 →
      co = TcpConnectOutcome.connected ∧
        (process_setup_destination_direct (ConnectDestinationRequest.tcp dst) co).2
          = .ok (.tcp dst)) := by
  cases co with
  | connected => simp [process_setup_destination_direct, tcp_dest_connect]
  | resolveFailed => simp [process_setup_destination_direct, tcp_dest_connect]
  | timedOut => simp [process_setup_destination_direct, tcp_dest_connect]
  | connectFailed => simp [process_setup_destination_direct, tcp_dest_connect]

/-- Witness for C2 at a concrete input: destination domain bytes `[104]`
port 80, connect timed out. -/
theorem claim_C2_witness :
    process_setup_destination_direct
      (ConnectDestinationRequest.tcp (UnifiedAddress.domain [104] 80))
      TcpConnectOutcome.timedOut = ([], .error .unknown) :=
  (claim_C2 (UnifiedAddress.domain [104] 80) TcpConnectOutcome.timedOut).1
    (by decide)

/-! ## Agent SOCKS5 CONNECT path
(`src/agent/src/tunnel/socks5.rs` `process_socks5_tunnel`, the
`Socks5Command::TCPConnect` branch). -/

/-- The stage at which the CONNECT branch stops: the proxy-connection fetch
fails, the destination setup on the proxy fails, or everything succeeds and
relaying begins. -/
inductive Socks5SetupStage where
  | fetchFailed
  | setupFailed
  | relayOk
deriving DecidableEq, Repr

/-- Events of the CONNECT branch in program order: fetch the proxy
connection, write the SOCKS5 success reply (bind address 0.0.0.0, port 0,
from `reply_success(SocketAddr::V4(SocketAddrV4::new(Ipv4Addr::UNSPECIFIED,
0)))`), run `setup_destination` on the tunnel, then relay. -/
inductive Socks5Event where
  | fetchProxyConn
  | replySuccess (bindIp : List Nat) (bindPort : Nat)
  | setupDestination (dst : UnifiedAddress)
  | relayData
deriving DecidableEq, Repr

/-- Replies the CONNECT branch writes to the client. -/
inductive Socks5Reply where
  | successReply (bindIp : List Nat) (bindPort : Nat)
  | errorReply (code : Nat)
deriving DecidableEq, Repr

/-- The event trace of the `TCPConnect` branch of `process_socks5_tunnel`:
the success reply is written before `setup_destination` runs; a setup
failure returns with `?` after the reply was already sent. -/
def socks5_tcp_connect_events (dst : UnifiedAddress) :
    Socks5SetupStage → List Socks5Event
  | .fetchFailed => [.fetchProxyConn]
  | .setupFailed => [.fetchProxyConn, .replySuccess [0, 0, 0, 0] 0,
      .setupDestination dst]
  | .relayOk => [.fetchProxyConn, .replySuccess [0, 0, 0, 0] 0,
      .setupDestination dst, .relayData]

/-- The replies the client sees in each stage: after a setup failure the
success reply has already been written and no error reply follows. -/
def socks5_tcp_connect_client_replies : Socks5SetupStage → List Socks5Reply
  | .fetchFailed => []
  | .setupFailed => [.successReply [0, 0, 0, 0] 0]
  | .relayOk => [.successReply [0, 0, 0, 0] 0]

/-- Counterexample to C6 as stated: when destination setup fails, the
client has already received the SOCKS5 success reply (bind 0.0.0.0:0) and
receives no error reply; in the event trace the success reply strictly
precedes the destination setup. -/
theorem claim_C6_counterexample :
    socks5_tcp_connect_client_replies Socks5SetupStage.setupFailed
      = [Socks5Reply.successReply [0, 0, 0, 0] 0] ∧
    socks5_tcp_connect_events (UnifiedAddress.domain [104] 80)
        Socks5SetupStage.setupFailed
      = [Socks5Event.fetchProxyConn, Socks5Event.replySuccess [0, 0, 0, 0] 0,
         Socks5Event.setupDestination (UnifiedAddress.domain [104] 80)] :=
  ⟨rfl, rfl⟩

/-- Claim C6 (amended): the agent writes the SOCKS5 success reply with bind
address 0.0.0.0:0 immediately after reading the CONNECT command and before
`setup_destination` completes; whenever destination setup runs it is
preceded in the trace by the success reply, and on setup failure the
connection is dropped without any SOCKS5 error reply (the success reply is
the only reply the client ever receives past the fetch stage). -/
theorem claim_C6 (dst : UnifiedAddress) (st : Socks5SetupStage) :
    (Socks5Event.setupDestination dst ∈ socks5_tcp_connect_events dst st →
      ∃ i j, i < j ∧
        (socks5_tcp_connect_events dst st).get? i
          = some (Socks5Event.replySuccess [0, 0, 0, 0] 0) ∧
        (socks5_tcp_connect_events dst st).get? j
          = some (Socks5Event.setupDestination dst)) ∧
    (∀ c : Nat, Socks5Reply.errorReply c ∉ socks5_tcp_connect_client_replies st) ∧
    (st = Socks5SetupStage.setupFailed →
      socks5_tcp_connect_client_replies st
        = [Socks5Reply.successReply [0, 0, 0, 0] 0]) := by
  cases st with
  | fetchFailed =>
    refine ⟨?_, ?_, ?_⟩
    · intro hmem
      simp [socks5_tcp_connect_events] at hmem
    · intro c
      simp [socks5_tcp_connect_client_replies]
    · intro hst
      cases hst
  | setupFailed =>
    refine ⟨?_, ?_, ?_⟩
    · intro _
      exact ⟨1, 2, by omega, rfl, rfl⟩
    · intro c
      simp [socks5_tcp_connect_client_replies]
    · intro _
      rfl
  | relayOk =>
    refine ⟨?_, ?_, ?_⟩
    · intro _
      exact ⟨1, 2, by omega, rfl, rfl⟩
    · intro c
      simp [socks5_tcp_connect_client_replies]
    · intro hst
      cases hst

/-- Witness for C6 at a concrete input: destination domain bytes `[104]`
port 80, setup failure stage. -/
theorem claim_C6_witness :
    socks5_tcp_connect_client_replies Socks5SetupStage.setupFailed
      = [Socks5Reply.successReply [0, 0, 0, 0] 0] :=
  (claim_C6 (UnifiedAddress.domain [104] 80) Socks5SetupStage.setupFailed).2.2 rfl

/-! ## Accept loop (`src/common/src/server.rs` `start_server`). -/

/-- Outcome of `client_max_connections.acquire_owned()`. -/
inductive PermitOutcome where
  | permitGranted
  | permitClosed
deriving DecidableEq, Repr

/-- Outcome of `tcp_listener.accept()`. -/
inductive AcceptOutcome where
  | accepted
  | acceptError
deriving DecidableEq, Repr

/-- What one iteration of the accept loop decides to do. -/
inductive LoopDecision where
  | stopLoop
  | retryLoop
  | spawnHandler
deriving DecidableEq, Repr

/-- Embedding of one iteration of the `start_server` select loop: a
signalled cancellation token stops the loop; otherwise, once `accept()`
completes, the permit is acquired first — a permit-acquire error (closed
semaphore) is logged and the loop `continue`s, an accept error is logged
and the loop `continue`s, and only with a granted permit and an accepted
connection is the handler spawned (holding the permit). -/
def accept_loop_step (cancelled : Bool) (permit : PermitOutcome)
    (conn : AcceptOutcome) : LoopDecision :=
  if cancelled then .stopLoop
  else
    match permit with
    | .permitClosed => .retryLoop
    | .permitGranted =>
      match conn with
      | .acceptError => .retryLoop
      | .accepted => .spawnHandler

/-- Events of the spawned per-connection task: run the handler, log its
error if it failed, then drop (release) the permit in every case. -/
inductive HandlerEvent where
  | runHandler
  | logHandlerError
  | releasePermit
deriving DecidableEq, Repr

/-- Embedding of the task body spawned by `start_server`: the permit is
dropped after the handler completes, whether it succeeded or errored. -/
def spawned_handler_events : Except String Unit → List HandlerEvent
  | .ok _ => [.runHandler, .releasePermit]
  | .error _ => [.runHandler, .logHandlerError, .releasePermit]

/-- Counterexample to C7 as stated: a permit-acquire error (semaphore
closed) is logged and the loop retries (`continue`) — it does not terminate
the loop. -/
theorem claim_C7_counterexample :
    accept_loop_step false PermitOutcome.permitClosed AcceptOutcome.accepted
      = LoopDecision.retryLoop ∧
    LoopDecision.retryLoop ≠ LoopDecision.stopLoop :=
  ⟨rfl, by decide⟩

/-- Claim C7 (amended): in the accept loop both an accept error and a
permit-acquire error are logged and the loop retries; the handler is
spawned only when the permit was granted and the connection accepted (the
permit is held before the connection is handed to the handler), and the
spawned task releases the permit after the handler completes, whether it
succeeds or errors. -/
theorem claim_C7 (conn : AcceptOutcome) :
    (accept_loop_step false PermitOutcome.permitClosed conn
      = LoopDecision.retryLoop) ∧
    (accept_loop_step false PermitOutcome.permitGranted AcceptOutcome.acceptError
      = LoopDecision.retryLoop) ∧
    (∀ (c : Bool) (p : PermitOutcome) (a : AcceptOutcome),
      accept_loop_step c p a = LoopDecision.spawnHandler →
        c = false ∧ p = PermitOutcome.permitGranted ∧ a = AcceptOutcome.accepted) ∧
    (∀ r : Except String Unit,
      (spawned_handler_events r).getLast? = some HandlerEvent.releasePermit) := by
  refine ⟨?_, rfl, ?_, ?_⟩
  · cases conn <;> rfl
  · intro c p a h
    cases c with
    | true => simp [accept_loop_step] at h
    | false =>
      cases p with
      | permitClosed => simp [accept_loop_step] at h
      | permitGranted =>
        cases a with
        | acceptError => simp [accept_loop_step] at h
        | accepted => exact ⟨rfl, rfl, rfl⟩
  · intro r
    cases r with
    | ok _ => rfl
    | error _ => rfl

/-- Witness for C7 at a concrete input: permit granted, accepted connection
spawns the handler; the spawn implies the permit was granted. -/
theorem claim_C7_witness :
    accept_loop_step false PermitOutcome.permitClosed AcceptOutcome.accepted
      = LoopDecision.retryLoop ∧
    (accept_loop_step false PermitOutcome.permitGranted AcceptOutcome.accepted
        = LoopDecision.spawnHandler →
      false = false ∧ PermitOutcome.permitGranted = PermitOutcome.permitGranted ∧
        AcceptOutcome.accepted = AcceptOutcome.accepted) :=
  ⟨(claim_C7 AcceptOutcome.accepted).1,
    (claim_C7 AcceptOutcome.accepted).2.2.1 false PermitOutcome.permitGranted
      AcceptOutcome.accepted⟩

/-! ## Agent protocol detection (`src/agent/src/tunnel/mod.rs` `process`). -/

/-- What the agent does with an accepted client connection. -/
inductive DispatchAction where
  | closeOk
  | rejectSocks4Shutdown
  | socks5Path
  | httpPath
deriving DecidableEq, Repr

/-- Embedding of `process` (`src/agent/src/tunnel/mod.rs`): peek at most one
byte from the stream without consuming it (`peek` into a 1-byte buffer); a
zero-length peek returns `Ok` and closes; byte 4 rejects SOCKS4 and shuts
the stream down; byte 5 enters the SOCKS5 path; every other byte enters the
HTTP path. The second component is the stream as the chosen path sees it —
identical to the input, since `peek` consumes nothing. -/
def protocol_dispatch (stream : List Nat) : DispatchAction × List Nat :=
  match stream.take 1 with
  | [] => (.closeOk, stream)
  | b :: _ =>
    if b = 4 then (.rejectSocks4Shutdown, stream)
    else if b = 5 then (.socks5Path, stream)
    else (.httpPath, stream)

/-- Claim C8: the agent peeks exactly one byte without consuming it and
dispatches on it — 0x05 to SOCKS5, 0x04 to rejection with shutdown, every
other value to HTTP; in every case the stream handed on is unchanged, and
an empty stream closes cleanly. -/
theorem claim_C8 (b : Nat) (rest : List Nat) :
    ((protocol_dispatch (b :: rest)).2 = b :: rest) ∧
    (b = 5 → (protocol_dispatch (b :: rest)).1 = DispatchAction.socks5Path) ∧
    (b = 4 → (protocol_dispatch (b :: rest)).1 = DispatchAction.rejectSocks4Shutdown) ∧
    (b ≠ 4 → b ≠ 5 → (protocol_dispatch (b :: rest)).1 = DispatchAction.httpPath) ∧
    protocol_dispatch [] = (DispatchAction.closeOk, []) := by
  unfold protocol_dispatch
  by_cases h4 : b = 4
  · subst h4
    refine ⟨rfl, ?_, fun _ => rfl, ?_, rfl⟩
    · intro h5
      omega
    · intro hne _
      exact absurd rfl hne
  · by_cases h5 : b = 5
    · subst h5
      refine ⟨rfl, fun _ => ?_, ?_, ?_, rfl⟩
      · simp
      · intro h
        omega
      · intro _ hne
        exact absurd rfl hne
    · refine ⟨?_, ?_, ?_, ?_, rfl⟩
      · simp [h4, h5]
      · intro h
        exact absurd h h5
      · intro h
        exact absurd h h4
      · intro _ _
        simp [h4, h5]

/-- Witness for C8 at a concrete input: first byte 5 enters the SOCKS5 path
with the stream unconsumed. -/
theorem claim_C8_witness :
    ((protocol_dispatch [5, 1, 0]).2 = [5, 1, 0]) ∧
    (protocol_dispatch [5, 1, 0]).1 = DispatchAction.socks5Path :=
  ⟨(claim_C8 5 [1, 0]).1, (claim_C8 5 [1, 0]).2.1 rfl⟩

/-! ## Unsupported client requests (`src/agent/src/tunnel/socks5.rs`
command dispatch and the forward-mode branch of
`src/proxy/src/tunnel.rs`). -/

/-- The SOCKS5 commands read by `read_command`. -/
inductive Socks5Command where
  | tcpConnect
  | tcpBind
  | udpAssociate
deriving DecidableEq, Repr

/-- How a handler run ends: normal completion, a typed returned error, or a
panic (`unimplemented!`/`panic!`). -/
inductive HandlerOutcome where
  | completed
  | typedError
  | panicked (msg : String)
deriving DecidableEq, Repr

/-- Embedding of the `match socks5_command` dispatch in
`process_socks5_tunnel` (`src/agent/src/tunnel/socks5.rs`): `TCPConnect`
and `UDPAssociate` are handled; `TCPBind` hits
`unimplemented!("Socks5 bind protocol not supported...")`, a panic. -/
def socks5_command_outcome : Socks5Command → HandlerOutcome
  | .tcpConnect => .completed
  | .tcpBind => .panicked "Socks5 bind protocol not supported"
  | .udpAssociate => .completed

/-- Embedding of the forward-mode `match setup_destination` branch of
`process_setup_destination` (`src/proxy/src/tunnel.rs`): a TCP request is
chained through the forward proxy; a UDP request hits
`unimplemented!("UDP still not support")`, a panic. -/
def forward_setup_outcome : ConnectDestinationRequest → HandlerOutcome
  | .tcp _ => .completed
  | .udp _ => .panicked "UDP still not support"

/-- Counterexample to C9 as stated: a SOCKS5 BIND command and a UDP
destination-setup request at a proxy in forward mode both panic via
`unimplemented!` instead of returning a typed error or closing. -/
theorem claim_C9_counterexample :
    socks5_command_outcome Socks5Command.tcpBind
      = HandlerOutcome.panicked "Socks5 bind protocol not supported" ∧
    forward_setup_outcome
        (ConnectDestinationRequest.udp (UnifiedAddress.domain [104] 80))
      = HandlerOutcome.panicked "UDP still not support" :=
  ⟨rfl, rfl⟩

/-- Claim C9 (amended): a SOCKS4 connection is rejected with a stream
shutdown and no panic, but the other unsupported requests do panic: SOCKS5
BIND hits `unimplemented!` in the agent, and a UDP destination-setup
request at a proxy in forward mode hits `unimplemented!` in the proxy. -/
theorem claim_C9 (rest : List Nat) :
    ((protocol_dispatch (4 :: rest)).1 = DispatchAction.rejectSocks4Shutdown) ∧
    socks5_command_outcome Socks5Command.tcpBind
      = HandlerOutcome.panicked "Socks5 bind protocol not supported" ∧
    (∀ a : UnifiedAddress, forward_setup_outcome (ConnectDestinationRequest.udp a)
      = HandlerOutcome.panicked "UDP still not support") ∧
    (∀ a : UnifiedAddress, ∀ m : String,
      forward_setup_outcome (ConnectDestinationRequest.tcp a)
        ≠ HandlerOutcome.panicked m) := by
  refine ⟨rfl, rfl, fun _ => rfl, ?_⟩
  intro a m h
  cases h

/-- Witness for C9 at a concrete input: stream starting with byte 4. -/
theorem claim_C9_witness :
    (protocol_dispatch [4, 9]).1 = DispatchAction.rejectSocks4Shutdown ∧
    socks5_command_outcome Socks5Command.tcpBind
      = HandlerOutcome.panicked "Socks5 bind protocol not supported" :=
  ⟨(claim_C9 [9]).1, (claim_C9 [9]).2.1⟩

/-! ## UDP egress buffers (`src/proxy/src/destination/udp.rs`
`UdpDestEndpoint::replay_to` and the `Destination::Udp` branch of
`process_relay` in `src/proxy/src/tunnel.rs`). -/

/-- The fixed UDP buffer size: `[0u8; 65536]`. -/
def UDP_BUF_LEN : Nat := 65536

/-- A fresh zeroed 65536-byte buffer after a read/recv wrote the leading
bytes of `payload` into it: the first `min payload UDP_BUF_LEN` bytes are
the payload, the tail keeps its zeros. -/
def fill_udp_buffer (payload : List Nat) : List Nat :=
  payload.take UDP_BUF_LEN
    ++ List.replicate (UDP_BUF_LEN - min payload.length UDP_BUF_LEN) 0

/-- Embedding of `UdpDestEndpoint::replay_to`
(`src/proxy/src/destination/udp.rs`): send the given buffer to the
destination, `recv` one datagram into `[0u8; 65536]`, ignore the received
length, and return the entire buffer with `to_vec()`. -/
def replay_to (dst_response : List Nat) : List Nat :=
  fill_udp_buffer dst_response

/-- Embedding of the `Destination::Udp` branch of `process_relay`
(`src/proxy/src/tunnel.rs`): read once from the relay into a 65536-byte
buffer, ignore the byte count, pass the whole buffer to `replay_to`, and
write the whole returned buffer back to the relay. The first component is
the buffer sent to the destination, the second the bytes written back to
the relay. -/
def process_relay_udp (tunnel_payload dst_response : List Nat) :
    List Nat × List Nat :=
  (fill_udp_buffer tunnel_payload, replay_to dst_response)

theorem fill_udp_buffer_length (payload : List Nat) :
    (fill_udp_buffer payload).length = UDP_BUF_LEN := by
  unfold fill_udp_buffer
  rw [List.length_append, List.length_take, List.length_replicate]
  omega

/-- Claim C10: the proxy's UDP egress always hands back a buffer of exactly
65536 bytes regardless of the destination datagram's actual size, and the
relay likewise sends its full 65536-byte client buffer to the destination
regardless of how many bytes were read from the tunnel. -/
theorem claim_C10 (tunnel_payload dst_response : List Nat) :
    (replay_to dst_response).length = UDP_BUF_LEN ∧
    (process_relay_udp tunnel_payload dst_response).1.length = UDP_BUF_LEN ∧
    (process_relay_udp tunnel_payload dst_response).2.length = UDP_BUF_LEN ∧
    (process_relay_udp tunnel_payload dst_response).2 = replay_to dst_response :=
  ⟨fill_udp_buffer_length dst_response, fill_udp_buffer_length tunnel_payload,
    fill_udp_buffer_length dst_response, rfl⟩

end PpaassV4
